import Mathlib

/-!
Shallow embedding of the grep-ast context-selection engine (the canonical
`grepast` revision: `TreeContext`, span-index construction, `Grep`,
`AddLinesOfInterest`, `AddContext` with its parent/child expansion and
gap-closing phases, and `Format`), together with theorems settling the
frozen claims about it.

Line numbers are modelled as `Nat` (tree-sitter rows are unsigned; the Go
`int` bounds checks of the form `i < 0` are vacuous for the values that
reach them, and the out-of-range direction that matters is `i >= numLines`,
which `Nat` represents directly).  Go maps over `int` keys are modelled as
`Finset Nat`; iteration over a map is modelled as iteration over the sorted
key list (every universally quantified theorem below is insensitive to the
order, since the loop bodies only accumulate into sets).

Syntax parsing and regular-expression matching are external collaborators:
the parse tree arrives as an `SNode` tree, and `Grep` takes the compiled
pattern as a `String → Bool` test plus a highlighting function.

The fallible spot of the pipeline is `closeSmallGaps`, which indexes
`tc.lines[next]` without a bounds check; it is therefore embedded with an
`Option` result (`none` = the Go runtime panic "index out of range").
-/

namespace GrepAst

/-- A parse-tree node as exposed by the external tree-sitter collaborator:
start row, end row (inclusive, in source-line units) and the ordered list of
named children. -/
inductive SNode : Type where
  | node (startRow endRow : Nat) (children : List SNode)

def SNode.startRow : SNode → Nat
  | .node s _ _ => s

def SNode.endRow : SNode → Nat
  | .node _ e _ => e

def SNode.children : SNode → List SNode
  | .node _ _ cs => cs

/-- `TreeContextOptions` of the source, with Go zero values as defaults
(`Verbose` is omitted: it only controls debug printing). -/
structure TreeContextOptions where
  Color : Bool := false
  HeaderMax : Nat := 0
  LinesOfInterestPadding : Nat := 0
  MarginPadding : Nat := 0
  MarkLinesOfInterest : Bool := false
  ShowChildContext : Bool := false
  ShowLastLine : Bool := false
  ShowLineNumber : Bool := false
  ShowParentContext : Bool := false
  ShowTopOfFileParentScope : Bool := false

/-- The `TreeContext` state.  `outputLines` (Go `map[int]string`) is an
association list; `scopes`, `header` and `nodes` are the three line-indexed
span-index tables, all of length `numLines`. -/
structure TreeContext where
  color : Bool
  showLineNumber : Bool
  showLastLine : Bool
  margin : Nat
  markLOIs : Bool
  headerMax : Nat
  loiPad : Nat
  showTopOfFileParentScope : Bool
  parentContext : Bool
  showChildContext : Bool
  lines : List String
  numLines : Nat
  outputLines : List (Nat × String)
  scopes : List (Finset Nat)
  header : List (Nat × Nat)
  nodes : List (List SNode)
  showLines : Finset Nat
  linesOfInterest : Finset Nat
  doneParentScopes : Finset Nat

/-- Span-index construction state threaded through `walkTree`: the raw
`header` entries are the literal Go slices (initialised to `[0, 0]`,
overwritten with `[size, startLine, endLine]` for nodes of positive size). -/
structure BuildState where
  scopes : List (Finset Nat)
  header : List (List Nat)
  nodes : List (List SNode)

mutual
/-- `walkTree` (named-children pre-order traversal): record the node on its
start line, store the raw header triple when `size > 0`, and mark every
covered line as belonging to scope `startLine`.  A node whose start line is
out of range is skipped together with its subtree (the Go code returns
early). -/
def walkOne (st : BuildState) : SNode → BuildState
  | .node sr er cs =>
    if sr ≥ st.nodes.length then st
    else
      let st1 : BuildState :=
        { st with nodes := st.nodes.modify (fun l => l ++ [SNode.node sr er cs]) sr }
      let st2 : BuildState :=
        if er - sr > 0 then
          { st1 with header := st1.header.set sr [er - sr, sr, er] }
        else st1
      let st3 : BuildState :=
        { st2 with
          scopes := st2.scopes.mapIdx (fun i sc => if sr ≤ i ∧ i ≤ er then insert sr sc else sc) }
      walkList st3 cs

def walkList (st : BuildState) : List SNode → BuildState
  | [] => st
  | c :: cs => walkList (walkOne st c) cs
end

/-- `postWalkProcessing`: turn each raw header entry into the final
`(headStart, headEnd)` window.  The `len < 2` default branch of the Go code
is kept verbatim; it is unreachable because the constructor initialises
every entry to `[0, 0]`. -/
def postWalkProcessing (headerMax : Nat) (numLines : Nat) (raw : List (List Nat)) :
    List (Nat × Nat) :=
  (List.range numLines).map fun i =>
    match raw.getD i [] with
    | sz :: hs :: rest =>
      let he := match rest with
        | [] => hs + 1
        | c :: _ => c
      (hs, if sz > headerMax then hs + headerMax else he)
    | _ => (i, i + 1)

/-- `NewTreeContext`, with parsing factored out: the caller passes the split
source lines and the tree-sitter root node (language lookup and parsing are
the external collaborator; an unsupported file never reaches this point). -/
def NewTreeContext (options : TreeContextOptions) (lines : List String) (root : SNode) :
    TreeContext :=
  let numLines := lines.length
  let st0 : BuildState :=
    { scopes := List.replicate numLines ∅
      header := List.replicate numLines [0, 0]
      nodes := List.replicate numLines [] }
  let st := walkOne st0 root
  { color := options.Color
    showLineNumber := options.ShowLineNumber
    showLastLine := options.ShowLastLine
    margin := options.MarginPadding
    markLOIs := options.MarkLinesOfInterest
    headerMax := options.HeaderMax
    loiPad := options.LinesOfInterestPadding
    showTopOfFileParentScope := options.ShowTopOfFileParentScope
    parentContext := options.ShowParentContext
    showChildContext := options.ShowChildContext
    lines := lines
    numLines := numLines
    outputLines := []
    scopes := st.scopes
    header := postWalkProcessing options.HeaderMax numLines st.header
    nodes := st.nodes
    showLines := ∅
    linesOfInterest := ∅
    doneParentScopes := ∅ }

/-- Association-list update mirroring the Go map write `outputLines[i] = v`. -/
def setOutput (m : List (Nat × String)) (k : Nat) (v : String) : List (Nat × String) :=
  m.filter (fun p => p.1 ≠ k) ++ [(k, v)]

/-- Association-list lookup mirroring the Go map read `outputLines[i]`. -/
def lookupOutput (m : List (Nat × String)) (k : Nat) : Option String :=
  (m.find? (fun p => p.1 = k)).map (fun p => p.2)

/-- One iteration of `Grep`'s loop over the indexed lines: when the compiled
pattern matches, store the highlighted rendering (only under `color`) and add
the index to the found set. -/
def GrepStep (test : String → Bool) (highlight : String → String)
    (acc : TreeContext × Finset Nat) (p : Nat × String) : TreeContext × Finset Nat :=
  if test p.2 then
    (if acc.1.color then
        { acc.1 with outputLines := setOutput acc.1.outputLines p.1 (highlight p.2) }
      else acc.1,
     insert p.1 acc.2)
  else acc

/-- `Grep(pat, ignoreCase)`: the regular-expression engine is the external
pattern-matching collaborator, so the compiled pattern (after the optional
`(?i)` prefixing for `ignoreCase`) is passed as the line test `test`, and
`ReplaceAllStringFunc`'s red-highlight rewriting as `highlight`.  Returns the
updated context and the found set. -/
def Grep (tc : TreeContext) (test : String → Bool) (highlight : String → String) :
    TreeContext × Finset Nat :=
  tc.lines.enum.foldl (GrepStep test highlight) (tc, ∅)

/-- `AddLinesOfInterest`: union the supplied line numbers into the LOI set. -/
def AddLinesOfInterest (tc : TreeContext) (lineNums : Finset Nat) : TreeContext :=
  { tc with linesOfInterest := tc.linesOfInterest ∪ lineNums }

/-- The shared backward scan of `getLastLineOfScope` and `getScopeBoundry`:
walk start lines from `i` down to 0 and, within each line, walk the recorded
nodes in order; return the first node whose span `[s, e]` satisfies
`i >= s && i <= e` and `e > lastLine` (with `lastLine` fixed at its initial
value `i`, since both Go loops return as soon as the test succeeds). -/
def scanEnclosing (nodes : List (List SNode)) (i : Nat) : Option SNode :=
  (List.range (i + 1)).reverse.findSome? fun sl =>
    (nodes.getD sl []).find? fun n =>
      decide (n.startRow ≤ i) && decide (i ≤ n.endRow) && decide (i < n.endRow)

/-- `getLastLineOfScope`: the maximal end line found by the backward scan, or
`i` itself when the index is out of range or no node qualifies. -/
def getLastLineOfScope (tc : TreeContext) (i : Nat) : Nat :=
  if i ≥ tc.nodes.length ∨ (tc.nodes.getD i []).isEmpty then i
  else
    match scanEnclosing tc.nodes i with
    | some n => n.endRow
    | none => i

/-- `getScopeBoundry` (source spelling): the `(start, end)` span of the node
found by the backward scan, or `(i, i)`. -/
def getScopeBoundry (tc : TreeContext) (i : Nat) : Nat × Nat :=
  if i ≥ tc.nodes.length ∨ (tc.nodes.getD i []).isEmpty then (i, i)
  else
    match scanEnclosing tc.nodes i with
    | some n => (n.startRow, n.endRow)
    | none => (i, i)

/-- The Go loop `for line := s; line <= e && line < numLines; line++`. -/
def lineRange (s e numLines : Nat) : Finset Nat :=
  (Finset.range numLines).filter (fun l => s ≤ l ∧ l ≤ e)

/-- The Go loop `for ln := headStart; ln < headEnd && ln < numLines; ln++`. -/
def headerRange (hs he numLines : Nat) : Finset Nat :=
  (Finset.range numLines).filter (fun l => hs ≤ l ∧ l < he)

/-- Go's `mapKeysSorted`: the keys of a set in ascending order.  Defined via
insertion sort lifted over the underlying multiset (permutation-invariant), so
that it evaluates inside the kernel. -/
def sortedKeys (s : Finset Nat) : List Nat :=
  Quot.liftOn s.val (fun l => List.insertionSort (fun a b => a ≤ b) l)
    (fun l1 l2 h =>
      List.eq_of_perm_of_sorted
        ((List.perm_insertionSort _ l1).trans
          (List.Perm.trans h (List.perm_insertionSort _ l2).symm))
        (List.sorted_insertionSort _ l1) (List.sorted_insertionSort _ l2))

/-- Body of `addParentScopes`' loop over the scope-start lines recorded for
line `i`, acting on the show-set accumulator (the only field the Go loop
writes; everything else it reads — `header`, `nodes`, `numLines`, the
top-of-file flag — is immutable during the loop).  Scope starts recorded by
`walkTree` are always within `header`'s range, so the `getD` default is never
consulted for constructed contexts.  Go source order: read the header window;
skip the scope entirely when `headStart == 0`; otherwise reveal the header
window, then reveal the scope's full boundary unless its end equals the
scope-start line itself. -/
def apsStepCore (header : List (Nat × Nat)) (numLines : Nat) (topFlag : Bool)
    (boundary : Nat → Nat × Nat) (acc : Finset Nat) (lineNum : Nat) : Finset Nat :=
  let hdr := header.getD lineNum (0, 0)
  if hdr.1 = 0 then acc
  else
    let acc1 :=
      if 0 < hdr.1 ∨ topFlag = true then acc ∪ headerRange hdr.1 hdr.2 numLines
      else acc
    let b := boundary lineNum
    if b.2 = lineNum then acc1
    else acc1 ∪ lineRange b.1 b.2 numLines

/-- The loop body of `addParentScopes`, reading its immutable inputs from the
context. -/
def apsStepSet (tc : TreeContext) (acc : Finset Nat) (lineNum : Nat) : Finset Nat :=
  apsStepCore tc.header tc.numLines tc.showTopOfFileParentScope (getScopeBoundry tc)
    acc lineNum

/-- `addParentScopes` on the `(showLines, doneParentScopes)` part of the
state: bounds check, memoisation on the visited set, then the loop over the
scope-start lines of line `i` (a Go map iteration, modelled sorted). -/
def apsSet (tc : TreeContext) (i : Nat) (st : Finset Nat × Finset Nat) :
    Finset Nat × Finset Nat :=
  if i ≥ tc.scopes.length then st
  else if i ∈ st.2 then st
  else
    ((sortedKeys (tc.scopes.getD i ∅)).foldl (apsStepSet tc) st.1, insert i st.2)

/-- `addParentScopes` as a `TreeContext` transformer. -/
def addParentScopes (tc : TreeContext) (i : Nat) : TreeContext :=
  let st := apsSet tc i (tc.showLines, tc.doneParentScopes)
  { tc with showLines := st.1, doneParentScopes := st.2 }

mutual
/-- `findAllChildren`: the node itself followed by all named descendants,
pre-order. -/
def findAllChildren : SNode → List SNode
  | .node sr er cs => SNode.node sr er cs :: findAllChildrenList cs

def findAllChildrenList : List SNode → List SNode
  | [] => []
  | c :: cs => findAllChildren c ++ findAllChildrenList cs
end

/-- The 64-bit value Go computes for `sortNodesBySize`'s key:
`StartPosition().Row - EndPosition().Row` in unsigned arithmetic, so any node
of positive real size underflows to `2^64 - size`. -/
def sizeKey (n : SNode) : Nat :=
  (((n.startRow : Int) - (n.endRow : Int)) % ((18446744073709551616 : Nat) : Int)).toNat

/-- Insertion step of the (stable) sort below. -/
def insertByKey (n : SNode) : List SNode → List SNode
  | [] => [n]
  | m :: ms => if sizeKey n ≤ sizeKey m then n :: m :: ms else m :: insertByKey n ms

/-- `sortNodesBySize`: Go's `sort.Slice` orders ascending by `sizeKey` and is
unstable (ties in unspecified order); this stable insertion sort is a
deterministic refinement of it.  No theorem below depends on the tie order. -/
def sortNodesBySize (ns : List SNode) : List SNode :=
  ns.foldr insertByKey []

/-- `computedMax` of `addChildContext`: `int(float64(size)*0.10 + 0.5)`
clamped to `[5, 25]`.  Within the clamped range the floating-point expression
agrees with round-half-up of `size / 10`, i.e. `(size + 5) / 10`. -/
def computedMaxFor (size : Nat) : Nat :=
  let m := (size + 5) / 10
  if m < 5 then 5 else if m > 25 then 25 else m

/-- The child-expansion loop of `addChildContext`, on the
`(showLines, doneParentScopes)` state: stop (`break`) once the show-set has
grown by more than the budget; otherwise reveal the child's whole span and
its parent scopes, then continue. -/
def childLoop (tc : TreeContext) (base budget : Nat) :
    List SNode → Finset Nat × Finset Nat → Finset Nat × Finset Nat
  | [], st => st
  | c :: rest, st =>
    if st.1.card > base + budget then st
    else
      childLoop tc base budget rest
        (apsSet tc c.startRow (st.1 ∪ lineRange c.startRow c.endRow tc.numLines, st.2))

/-- `addChildContext` on the `(showLines, doneParentScopes)` state: no-op
when no node starts at `i`; reveal the whole block when its size is below 5;
otherwise expand the size-sorted descendants under the clamped budget. -/
def childCtxSet (tc : TreeContext) (i : Nat) (st : Finset Nat × Finset Nat) :
    Finset Nat × Finset Nat :=
  if i ≥ tc.nodes.length then st
  else if (tc.nodes.getD i []).isEmpty then st
  else
    let lastLine := getLastLineOfScope tc i
    let size := lastLine - i
    if size < 5 then (st.1 ∪ lineRange i lastLine tc.numLines, st.2)
    else
      childLoop tc st.1.card (computedMaxFor size)
        (sortNodesBySize ((tc.nodes.getD i []).flatMap findAllChildren)) st

/-- `addChildContext` as a `TreeContext` transformer. -/
def addChildContext (tc : TreeContext) (i : Nat) : TreeContext :=
  let st := childCtxSet tc i (tc.showLines, tc.doneParentScopes)
  { tc with showLines := st.1, doneParentScopes := st.2 }

/-- The test `strings.TrimSpace(line) == ""` of the Go source: the line has
no non-whitespace content.  (Implemented as an all-whitespace check, which
evaluates inside the kernel; `String.trim` itself does not.) -/
def isBlankLine (s : String) : Bool :=
  s.data.all (fun ch => ch.isWhitespace)

/-- One iteration of `closeSmallGaps`' pass over adjacent sorted pairs
`(curr, next)`.  Faithfully to the Go source, `next == last` compares the
line number `next` with `len(sortedShow) - 1`, and only then is
`tc.lines[next]` read — without a bounds check, so a `next` beyond the line
list is the Go panic, modelled as `none`. -/
def gapStep (lines : List String) (last : Nat) (acc : Finset Nat) (curr next : Nat) :
    Option (Finset Nat) :=
  if next = last then
    match lines.get? next with
    | none => none
    | some t =>
      if isBlankLine t = true then some acc
      else if next - curr = 2 then some (insert (curr + 1) acc)
      else some acc
  else if next - curr = 2 then some (insert (curr + 1) acc)
  else some acc

/-- The fill pass of `closeSmallGaps` over the list of adjacent pairs. -/
def gapPass (lines : List String) (last : Nat) (acc : Finset Nat) :
    List (Nat × Nat) → Option (Finset Nat)
  | [] => some acc
  | p :: rest =>
    match gapStep lines last acc p.1 p.2 with
    | none => none
    | some acc1 => gapPass lines last acc1 rest

/-- Adjacent pairs `(sortedShow[i], sortedShow[i+1])` for `i < last`. -/
def adjacentPairs (l : List Nat) : List (Nat × Nat) :=
  l.zip l.tail

/-- `closeSmallGaps` on the show-set: copy the set, then run the single fill
pass over the sorted lines (`none` = the out-of-range panic). -/
def closeSmallGapsSet (lines : List String) (showLines : Finset Nat) :
    Option (Finset Nat) :=
  gapPass lines ((sortedKeys showLines).length - 1) showLines
    (adjacentPairs (sortedKeys showLines))

/-- Phase 1 of `AddContext`: seed every line of interest into the show-set
(no bounds check in the source). -/
def phaseSeed (tc : TreeContext) (s : Finset Nat) : Finset Nat :=
  s ∪ tc.linesOfInterest

/-- Phase 2 of `AddContext`: when `loiPad > 0`, pad every currently shown
line by `±loiPad`, clamped to the file bounds (the Go loop collects into
`toAdd` first, i.e. pads a snapshot, which unioning reproduces). -/
def phasePad (tc : TreeContext) (s : Finset Nat) : Finset Nat :=
  if 0 < tc.loiPad then
    s ∪ s.biUnion (fun line =>
      (Finset.range tc.numLines).filter
        (fun nl => line - tc.loiPad ≤ nl ∧ nl ≤ line + tc.loiPad))
  else s

/-- Phase 3 of `AddContext`: when `showLastLine` is set, add the bottom line
`numLines - 1` and expand its parent scopes. -/
def phaseLast (tc : TreeContext) (st : Finset Nat × Finset Nat) :
    Finset Nat × Finset Nat :=
  if tc.showLastLine = true then
    apsSet tc (tc.numLines - 1) (insert (tc.numLines - 1) st.1, st.2)
  else st

/-- Phase 4 of `AddContext`: parent scopes of every line of interest. -/
def phaseParent (tc : TreeContext) (st : Finset Nat × Finset Nat) :
    Finset Nat × Finset Nat :=
  if tc.parentContext = true then
    (sortedKeys tc.linesOfInterest).foldl (fun st i => apsSet tc i st) st
  else st

/-- Phase 5 of `AddContext`: child contexts of every line of interest. -/
def phaseChild (tc : TreeContext) (st : Finset Nat × Finset Nat) :
    Finset Nat × Finset Nat :=
  if tc.showChildContext = true then
    (sortedKeys tc.linesOfInterest).foldl (fun st i => childCtxSet tc i st) st
  else st

/-- Phase 6 of `AddContext`: the top margin lines
(`for i := 0; i < margin && i < numLines; i++`). -/
def phaseMargin (tc : TreeContext) (s : Finset Nat) : Finset Nat :=
  if 0 < tc.margin then s ∪ Finset.range (min tc.margin tc.numLines) else s

/-- `AddContext`: no-op when the LOI set is empty; otherwise the seven phases
in source order, ending in the fallible `closeSmallGaps`. -/
def AddContext (tc : TreeContext) : Option TreeContext :=
  if tc.linesOfInterest = ∅ then some tc
  else
    let st :=
      phaseChild tc (phaseParent tc
        (phaseLast tc (phasePad tc (phaseSeed tc tc.showLines), tc.doneParentScopes)))
    (closeSmallGapsSet tc.lines (phaseMargin tc st.1)).map
      (fun s => { tc with showLines := s, doneParentScopes := st.2 })

/-- Right-justified width-3 rendering of `%3d`. -/
def fmt3d (n : Nat) : String :=
  let s := toString n
  if s.length ≥ 3 then s else String.mk (List.replicate (3 - s.length) ' ') ++ s

/-- `lineOfInterestSpacer`: the LOI marker glyph or the plain spacer. -/
def lineOfInterestSpacer (tc : TreeContext) (i : Nat) : String :=
  if i ∈ tc.linesOfInterest ∧ tc.markLOIs = true then
    if tc.color then "\x1b[31m█\x1b[0m" else "█"
  else "│"

/-- `highlightedOrOriginalLine`: prefer the highlighted rendering stored by
`Grep`. -/
def highlightedOrOriginalLine (tc : TreeContext) (i : Nat) (original : String) : String :=
  match lookupOutput tc.outputLines i with
  | some hl => hl
  | none => original

/-- One iteration of `Format`'s loop: the accumulator is the built string and
the pending-ellipsis flag.  A hidden line emits the collapsed-range marker
`⋮...` once per run; a shown line emits the optional line number, the spacer
and the (possibly highlighted) text, and re-arms the flag. -/
def FormatStep (tc : TreeContext) (acc : String × Bool) (p : Nat × String) :
    String × Bool :=
  if p.1 ∈ tc.showLines then
    let spacer := lineOfInterestSpacer tc p.1
    let oline := highlightedOrOriginalLine tc p.1 p.2
    (acc.1 ++
      (if tc.showLineNumber then fmt3d (p.1 + 1) ++ spacer ++ oline ++ "\n"
       else spacer ++ oline ++ "\n"),
     true)
  else if acc.2 then (acc.1 ++ "⋮...\n", false)
  else acc

/-- `Format`: the empty string when the show-set is empty; otherwise the
optional colour reset, then the loop over the indexed lines with the
pending-ellipsis flag initialised to whether line 0 is hidden. -/
def Format (tc : TreeContext) : String :=
  if tc.showLines = ∅ then ""
  else
    (tc.lines.enum.foldl (FormatStep tc)
      (if tc.color then "\x1b[0m\n" else "", !(decide (0 ∈ tc.showLines)))).1

/-! Concrete contexts used by the claim theorems, counterexamples and
witnesses.  Each corresponds to a small source file fed through the external
parser: the node trees written here are of the shape tree-sitter produces
(a root spanning the file, with zero or more named descendants). -/

/-- A 2-line file with only the root node; empty LOI and show sets. -/
def exC1 : TreeContext :=
  NewTreeContext {} ["a", "b"] (.node 0 1 [])

/-- The same 2-line file with the caller-supplied LOI set `{0, 1, 2}`, whose
line 2 is beyond the file's indexed range. -/
def exC2 : TreeContext :=
  AddLinesOfInterest (NewTreeContext {} ["a", "b"] (.node 0 1 [])) {0, 1, 2}

/-- A 9-line file (all lines non-blank), LOI padding 1, LOI `{4}`. -/
def exC3 : TreeContext :=
  AddLinesOfInterest
    (NewTreeContext { LinesOfInterestPadding := 1 }
      ["l0", "l1", "l2", "l3", "l4", "l5", "l6", "l7", "l8"] (.node 0 8 [])) {4}

/-- The state after one `AddContext` on `exC3` (the run succeeds). -/
def exC3once : TreeContext :=
  (AddContext exC3).get (by decide)

/-- The state after a second `AddContext`. -/
def exC3twice : TreeContext :=
  (AddContext exC3once).get (by decide)

/-- A 101-line file whose root node spans lines 0–100 and has no named
children (e.g. a file-long raw literal): block size 100, budget 10. -/
def exC4 : TreeContext :=
  NewTreeContext { HeaderMax := 10 } (List.replicate 101 "x") (.node 0 100 [])

/-- A 6-line file: root spanning 0–5 with one named child spanning 1–3 (a
3-line block); child context enabled, LOI `{1}` (the block's start line). -/
def exC6 : TreeContext :=
  AddLinesOfInterest
    (NewTreeContext { ShowChildContext := true, HeaderMax := 10 }
      ["a", "b", "c", "d", "e", "f"] (.node 0 5 [.node 1 3 []])) {1}

/-- A 2-line file with show-set `{1}` (reached through the pipeline), rendered
with line numbers. -/
def exC7num : TreeContext :=
  let t := AddLinesOfInterest
    (NewTreeContext { ShowLineNumber := true } ["a", "b"] (.node 0 1 [])) {1}
  (AddContext t).getD t

/-- The same file and show-set rendered without line numbers. -/
def exC7plain : TreeContext :=
  let t := AddLinesOfInterest
    (NewTreeContext {} ["a", "b"] (.node 0 1 [])) {1}
  (AddContext t).getD t

/-- A 3-line file, root spanning 0–2, with `ShowTopOfFileParentScope`
enabled; every line's scope set is `{0}` and scope 0's header window is
`(0, 2)`. -/
def exC8 : TreeContext :=
  NewTreeContext { ShowTopOfFileParentScope := true, HeaderMax := 10 }
    ["a", "b", "c"] (.node 0 2 [])

/-- A 3-line file, root spanning 0–2; no node starts on line 1. -/
def exC9 : TreeContext :=
  NewTreeContext { HeaderMax := 10 } ["a", "b", "c"] (.node 0 2 [])

/-! Helper lemmas: membership characterisations, monotonicity of every
selector operation in the show-set, in-file bounds on the lines they add, and
the fold invariants used by the claim theorems. -/

theorem mem_sortedKeys (s : Finset Nat) (a : Nat) : a ∈ sortedKeys s ↔ a ∈ s := by
  rcases s with ⟨⟨l⟩, hl⟩
  show a ∈ List.insertionSort (fun a b => a ≤ b) l ↔ _
  rw [(List.perm_insertionSort (fun a b => a ≤ b) l).mem_iff]
  exact Iff.rfl

theorem mem_lineRange {l s e n : Nat} : l ∈ lineRange s e n ↔ l < n ∧ s ≤ l ∧ l ≤ e := by
  simp [lineRange]

theorem mem_headerRange {l hs he n : Nat} :
    l ∈ headerRange hs he n ↔ l < n ∧ hs ≤ l ∧ l < he := by
  simp [headerRange]

theorem lineRange_subset_range (s e n : Nat) : lineRange s e n ⊆ Finset.range n :=
  Finset.filter_subset _ _

theorem headerRange_subset_range (hs he n : Nat) : headerRange hs he n ⊆ Finset.range n :=
  Finset.filter_subset _ _

theorem apsStepSet_subset (tc : TreeContext) (acc : Finset Nat) (lineNum : Nat) :
    acc ⊆ apsStepSet tc acc lineNum := by
  simp only [apsStepSet, apsStepCore]
  split_ifs <;> intro x hx <;> simp [Finset.mem_union, hx]

theorem apsStepSet_bound (tc : TreeContext) (acc : Finset Nat) (lineNum : Nat) :
    apsStepSet tc acc lineNum ⊆ acc ∪ Finset.range tc.numLines := by
  simp only [apsStepSet, apsStepCore]
  split_ifs <;> intro x hx <;>
    simp only [Finset.mem_union, mem_lineRange, mem_headerRange, Finset.mem_range] at hx ⊢ <;>
    tauto

theorem foldl_proj_subset {σ α : Type _} (g : σ → Finset Nat) (f : σ → α → σ)
    (h : ∀ s a, g s ⊆ g (f s a)) :
    ∀ (l : List α) (s : σ), g s ⊆ g (l.foldl f s)
  | [], _ => Finset.Subset.refl _
  | a :: l, s => (h s a).trans (foldl_proj_subset g f h l (f s a))

theorem foldl_proj_bound {σ α : Type _} (g : σ → Finset Nat) (f : σ → α → σ) (X : Finset Nat)
    (h : ∀ s a, g (f s a) ⊆ g s ∪ X) :
    ∀ (l : List α) (s : σ), g (l.foldl f s) ⊆ g s ∪ X
  | [], _ => Finset.subset_union_left
  | a :: l, s =>
    (foldl_proj_bound g f X h l (f s a)).trans
      (Finset.union_subset (h s a) Finset.subset_union_right)

theorem apsSet_fst_subset (tc : TreeContext) (i : Nat) (st : Finset Nat × Finset Nat) :
    st.1 ⊆ (apsSet tc i st).1 := by
  simp only [apsSet]
  split_ifs
  · exact Finset.Subset.refl _
  · exact Finset.Subset.refl _
  · exact foldl_proj_subset id (apsStepSet tc) (fun s a => apsStepSet_subset tc s a) _ st.1

theorem apsSet_fst_bound (tc : TreeContext) (i : Nat) (st : Finset Nat × Finset Nat) :
    (apsSet tc i st).1 ⊆ st.1 ∪ Finset.range tc.numLines := by
  simp only [apsSet]
  split_ifs
  · exact Finset.subset_union_left
  · exact Finset.subset_union_left
  · exact foldl_proj_bound id (apsStepSet tc) (Finset.range tc.numLines)
      (fun s a => apsStepSet_bound tc s a) _ st.1

theorem childLoop_fst_subset (tc : TreeContext) (base budget : Nat) :
    ∀ (cs : List SNode) (st : Finset Nat × Finset Nat),
      st.1 ⊆ (childLoop tc base budget cs st).1
  | [], _ => Finset.Subset.refl _
  | c :: rest, st => by
    rw [childLoop]
    split_ifs
    · exact Finset.Subset.refl _
    · exact (Finset.subset_union_left.trans
        (apsSet_fst_subset tc c.startRow
          (st.1 ∪ lineRange c.startRow c.endRow tc.numLines, st.2))).trans
        (childLoop_fst_subset tc base budget rest _)

theorem childLoop_fst_bound (tc : TreeContext) (base budget : Nat) :
    ∀ (cs : List SNode) (st : Finset Nat × Finset Nat),
      (childLoop tc base budget cs st).1 ⊆ st.1 ∪ Finset.range tc.numLines
  | [], _ => Finset.subset_union_left
  | c :: rest, st => by
    rw [childLoop]
    split_ifs
    · exact Finset.subset_union_left
    · refine (childLoop_fst_bound tc base budget rest _).trans ?_
      refine Finset.union_subset ((apsSet_fst_bound tc c.startRow _).trans ?_)
        Finset.subset_union_right
      refine Finset.union_subset (Finset.union_subset Finset.subset_union_left
        ((lineRange_subset_range _ _ _).trans Finset.subset_union_right))
        Finset.subset_union_right

theorem childCtxSet_fst_subset (tc : TreeContext) (i : Nat) (st : Finset Nat × Finset Nat) :
    st.1 ⊆ (childCtxSet tc i st).1 := by
  simp only [childCtxSet]
  split_ifs
  · exact Finset.Subset.refl _
  · exact Finset.Subset.refl _
  · exact Finset.subset_union_left
  · exact childLoop_fst_subset tc _ _ _ st

theorem childCtxSet_fst_bound (tc : TreeContext) (i : Nat) (st : Finset Nat × Finset Nat) :
    (childCtxSet tc i st).1 ⊆ st.1 ∪ Finset.range tc.numLines := by
  simp only [childCtxSet]
  split_ifs
  · exact Finset.subset_union_left
  · exact Finset.subset_union_left
  · exact Finset.union_subset Finset.subset_union_left
      ((lineRange_subset_range _ _ _).trans Finset.subset_union_right)
  · exact childLoop_fst_bound tc _ _ _ st

theorem gapStep_subset (lines : List String) (last : Nat) (acc : Finset Nat)
    (curr next : Nat) (acc1 : Finset Nat)
    (h : gapStep lines last acc curr next = some acc1) : acc ⊆ acc1 := by
  unfold gapStep at h
  by_cases h1 : next = last
  · rw [if_pos h1] at h
    split at h
    · exact absurd h (by simp)
    · rename_i t hget
      by_cases h2 : isBlankLine t = true
      · rw [if_pos h2] at h; injection h with h; subst h; exact Finset.Subset.refl _
      · rw [if_neg h2] at h
        by_cases h3 : next - curr = 2
        · rw [if_pos h3] at h; injection h with h; subst h; exact Finset.subset_insert _ _
        · rw [if_neg h3] at h; injection h with h; subst h; exact Finset.Subset.refl _
  · rw [if_neg h1] at h
    by_cases h3 : next - curr = 2
    · rw [if_pos h3] at h; injection h with h; subst h; exact Finset.subset_insert _ _
    · rw [if_neg h3] at h; injection h with h; subst h; exact Finset.Subset.refl _

theorem gapStep_mem (lines : List String) (last : Nat) (acc : Finset Nat)
    (curr next : Nat) (acc1 : Finset Nat)
    (h : gapStep lines last acc curr next = some acc1) :
    ∀ x ∈ acc1, x ∈ acc ∨ (next - curr = 2 ∧ x = curr + 1) := by
  unfold gapStep at h
  by_cases h1 : next = last
  · rw [if_pos h1] at h
    split at h
    · exact absurd h (by simp)
    · rename_i t hget
      by_cases h2 : isBlankLine t = true
      · rw [if_pos h2] at h; injection h with h; subst h
        exact fun x hx => Or.inl hx
      · rw [if_neg h2] at h
        by_cases h3 : next - curr = 2
        · rw [if_pos h3] at h; injection h with h; subst h
          intro x hx
          rcases Finset.mem_insert.mp hx with hx | hx
          · exact Or.inr ⟨h3, hx⟩
          · exact Or.inl hx
        · rw [if_neg h3] at h; injection h with h; subst h
          exact fun x hx => Or.inl hx
  · rw [if_neg h1] at h
    by_cases h3 : next - curr = 2
    · rw [if_pos h3] at h; injection h with h; subst h
      intro x hx
      rcases Finset.mem_insert.mp hx with hx | hx
      · exact Or.inr ⟨h3, hx⟩
      · exact Or.inl hx
    · rw [if_neg h3] at h; injection h with h; subst h
      exact fun x hx => Or.inl hx

theorem gapPass_subset (lines : List String) (last : Nat) :
    ∀ (ps : List (Nat × Nat)) (acc r : Finset Nat),
      gapPass lines last acc ps = some r → acc ⊆ r := by
  intro ps
  induction ps with
  | nil =>
    intro acc r h
    injection h with h; subst h; exact Finset.Subset.refl _
  | cons p rest ih =>
    intro acc r h
    rw [gapPass] at h
    cases hg : gapStep lines last acc p.1 p.2 with
    | none => rw [hg] at h; exact absurd h (by simp)
    | some acc1 =>
      rw [hg] at h
      exact (gapStep_subset lines last acc p.1 p.2 acc1 hg).trans (ih acc1 r h)

theorem gapPass_mem (lines : List String) (last : Nat) :
    ∀ (ps : List (Nat × Nat)) (acc r : Finset Nat),
      gapPass lines last acc ps = some r →
      ∀ x ∈ r, x ∈ acc ∨ ∃ p ∈ ps, p.2 - p.1 = 2 ∧ x = p.1 + 1 := by
  intro ps
  induction ps with
  | nil =>
    intro acc r h
    injection h with h; subst h
    exact fun x hx => Or.inl hx
  | cons p rest ih =>
    intro acc r h x hx
    rw [gapPass] at h
    cases hg : gapStep lines last acc p.1 p.2 with
    | none => rw [hg] at h; exact absurd h (by simp)
    | some acc1 =>
      rw [hg] at h
      rcases ih acc1 r h x hx with hx1 | ⟨q, hq, hq2⟩
      · rcases gapStep_mem lines last acc p.1 p.2 acc1 hg x hx1 with hx2 | hx2
        · exact Or.inl hx2
        · exact Or.inr ⟨p, List.mem_cons_self p rest, hx2⟩
      · exact Or.inr ⟨q, List.mem_cons_of_mem p hq, hq2⟩

theorem closeSmallGapsSet_subset (lines : List String) (s r : Finset Nat)
    (h : closeSmallGapsSet lines s = some r) : s ⊆ r :=
  gapPass_subset lines _ _ s r h

theorem phaseSeed_subset (tc : TreeContext) (s : Finset Nat) : s ⊆ phaseSeed tc s :=
  Finset.subset_union_left

theorem phasePad_subset (tc : TreeContext) (s : Finset Nat) : s ⊆ phasePad tc s := by
  unfold phasePad
  split_ifs
  · exact Finset.subset_union_left
  · exact Finset.Subset.refl _

theorem phaseLast_fst_subset (tc : TreeContext) (st : Finset Nat × Finset Nat) :
    st.1 ⊆ (phaseLast tc st).1 := by
  unfold phaseLast
  split_ifs
  · exact (Finset.subset_insert _ _).trans
      (apsSet_fst_subset tc (tc.numLines - 1) (insert (tc.numLines - 1) st.1, st.2))
  · exact Finset.Subset.refl _

theorem phaseParent_fst_subset (tc : TreeContext) (st : Finset Nat × Finset Nat) :
    st.1 ⊆ (phaseParent tc st).1 := by
  unfold phaseParent
  split_ifs
  · exact foldl_proj_subset Prod.fst (fun st i => apsSet tc i st)
      (fun s a => apsSet_fst_subset tc a s) _ st
  · exact Finset.Subset.refl _

theorem phaseChild_fst_subset (tc : TreeContext) (st : Finset Nat × Finset Nat) :
    st.1 ⊆ (phaseChild tc st).1 := by
  unfold phaseChild
  split_ifs
  · exact foldl_proj_subset Prod.fst (fun st i => childCtxSet tc i st)
      (fun s a => childCtxSet_fst_subset tc a s) _ st
  · exact Finset.Subset.refl _

theorem phaseMargin_subset (tc : TreeContext) (s : Finset Nat) : s ⊆ phaseMargin tc s := by
  unfold phaseMargin
  split_ifs
  · exact Finset.subset_union_left
  · exact Finset.Subset.refl _

theorem AddContext_showLines_mono (tc r : TreeContext) (h : AddContext tc = some r) :
    tc.showLines ⊆ r.showLines := by
  unfold AddContext at h
  split_ifs at h
  · injection h with h; subst h; exact Finset.Subset.refl _
  · rw [Option.map_eq_some'] at h
    obtain ⟨s, hs, hr⟩ := h
    subst hr
    show tc.showLines ⊆ s
    have h1 : tc.showLines ⊆ phasePad tc (phaseSeed tc tc.showLines) :=
      (phaseSeed_subset tc _).trans (phasePad_subset tc _)
    have h2 := phaseLast_fst_subset tc
      (phasePad tc (phaseSeed tc tc.showLines), tc.doneParentScopes)
    have h3 := phaseParent_fst_subset tc
      (phaseLast tc (phasePad tc (phaseSeed tc tc.showLines), tc.doneParentScopes))
    have h4 := phaseChild_fst_subset tc
      (phaseParent tc (phaseLast tc
        (phasePad tc (phaseSeed tc tc.showLines), tc.doneParentScopes)))
    have h5 := phaseMargin_subset tc
      (phaseChild tc (phaseParent tc (phaseLast tc
        (phasePad tc (phaseSeed tc tc.showLines), tc.doneParentScopes)))).1
    exact ((((h1.trans h2).trans h3).trans h4).trans h5).trans
      (closeSmallGapsSet_subset tc.lines _ s hs)

theorem childCtxSet_small (tc : TreeContext) (i : Nat) (st : Finset Nat × Finset Nat)
    (h1 : i < tc.nodes.length) (h2 : (tc.nodes.getD i []).isEmpty = false)
    (h3 : getLastLineOfScope tc i - i < 5) :
    (childCtxSet tc i st).1 = st.1 ∪ lineRange i (getLastLineOfScope tc i) tc.numLines := by
  have hne : ¬((tc.nodes.getD i []).isEmpty = true) := by
    rw [h2]; exact Bool.false_ne_true
  unfold childCtxSet
  rw [if_neg (by omega), if_neg hne, if_pos h3]

theorem childFold_small (tc : TreeContext) (i : Nat)
    (h1 : i < tc.nodes.length) (h2 : (tc.nodes.getD i []).isEmpty = false)
    (h3 : getLastLineOfScope tc i - i < 5) :
    ∀ (l : List Nat) (st : Finset Nat × Finset Nat), i ∈ l →
      lineRange i (getLastLineOfScope tc i) tc.numLines ⊆
        (l.foldl (fun st j => childCtxSet tc j st) st).1 := by
  intro l
  induction l with
  | nil => intro st hmem; exact absurd hmem (List.not_mem_nil i)
  | cons j rest ih =>
    intro st hmem
    rw [List.foldl_cons]
    rcases List.mem_cons.mp hmem with hj | hj
    · subst hj
      have hsub : lineRange i (getLastLineOfScope tc i) tc.numLines ⊆
          (childCtxSet tc i st).1 := by
        rw [childCtxSet_small tc i st h1 h2 h3]
        exact Finset.subset_union_right
      exact hsub.trans (foldl_proj_subset Prod.fst (fun st j => childCtxSet tc j st)
        (fun s a => childCtxSet_fst_subset tc a s) rest _)
    · exact ih _ hj

/-- `getScopeBoundry` only reads the `nodes` table, so it is unaffected by the
top-of-file flag. -/
theorem getScopeBoundry_flagged (tc : TreeContext) (b : Bool) (l : Nat) :
    getScopeBoundry { tc with showTopOfFileParentScope := b } l = getScopeBoundry tc l :=
  rfl

/-- Inside `addParentScopes`' loop, the branch that reads
`showTopOfFileParentScope` is only reached when `headStart != 0`, where the
disjunction `headStart > 0 || flag` is already true: the flag has no effect. -/
theorem apsStepCore_flag (header : List (Nat × Nat)) (numLines : Nat)
    (boundary : Nat → Nat × Nat) (acc : Finset Nat) (l : Nat) (b1 b2 : Bool) :
    apsStepCore header numLines b1 boundary acc l =
      apsStepCore header numLines b2 boundary acc l := by
  unfold apsStepCore
  by_cases h0 : (header.getD l (0, 0)).1 = 0
  · rw [if_pos h0, if_pos h0]
  · have hpos : 0 < (header.getD l (0, 0)).1 := Nat.pos_of_ne_zero h0
    rw [if_neg h0, if_neg h0, if_pos (Or.inl hpos), if_pos (Or.inl hpos)]

theorem apsStepSet_flagged (tc : TreeContext) (b : Bool) (acc : Finset Nat) (l : Nat) :
    apsStepSet { tc with showTopOfFileParentScope := b } acc l = apsStepSet tc acc l := by
  show apsStepCore tc.header tc.numLines b
      (getScopeBoundry { tc with showTopOfFileParentScope := b }) acc l =
    apsStepCore tc.header tc.numLines tc.showTopOfFileParentScope (getScopeBoundry tc) acc l
  have hb : getScopeBoundry { tc with showTopOfFileParentScope := b } = getScopeBoundry tc :=
    rfl
  rw [hb]
  exact apsStepCore_flag tc.header tc.numLines (getScopeBoundry tc) acc l b
    tc.showTopOfFileParentScope

theorem apsSet_flagged (tc : TreeContext) (b : Bool) (i : Nat)
    (st : Finset Nat × Finset Nat) :
    apsSet { tc with showTopOfFileParentScope := b } i st = apsSet tc i st := by
  have hstep : apsStepSet { tc with showTopOfFileParentScope := b } = apsStepSet tc :=
    funext fun acc => funext fun l => apsStepSet_flagged tc b acc l
  dsimp only [apsSet]
  rw [hstep]

/-- `Grep`'s loop never writes `showLines`. -/
theorem grepFold_showLines (test : String → Bool) (highlight : String → String) :
    ∀ (l : List (Nat × String)) (acc : TreeContext × Finset Nat),
      ((l.foldl (GrepStep test highlight) acc).1).showLines = acc.1.showLines := by
  intro l
  induction l with
  | nil => intro acc; rfl
  | cons p rest ih =>
    intro acc
    rw [List.foldl_cons]
    rw [ih (GrepStep test highlight acc p)]
    unfold GrepStep
    split_ifs <;> rfl

/-- The found set accumulated by `Grep`'s loop does not depend on the context
component of the accumulator (in particular not on its `color` field). -/
theorem grepFold_found (test : String → Bool) (highlight : String → String) :
    ∀ (l : List (Nat × String)) (t1 t2 : TreeContext) (s : Finset Nat),
      (l.foldl (GrepStep test highlight) (t1, s)).2 =
        (l.foldl (GrepStep test highlight) (t2, s)).2 := by
  intro l
  induction l with
  | nil => intro t1 t2 s; rfl
  | cons p rest ih =>
    intro t1 t2 s
    rw [List.foldl_cons, List.foldl_cons]
    unfold GrepStep
    by_cases ht : test p.2
    · simp only [ht, if_true]
      exact ih _ _ (insert p.1 s)
    · simp only [ht, if_false]
      exact ih t1 t2 s

/-! The claim theorems. -/

/-- C1: for every file, `Format()` returns the empty string whenever the
show-set is empty — in particular a fresh context has an empty show-set,
`AddLinesOfInterest` and `Grep` never touch it, and `AddContext` on an empty
LOI set is a no-op, so without a materialising `AddContext` call the output
is always `""`. -/
theorem c1_format_empty_when_show_empty
    (tc : TreeContext) (ns : Finset Nat) (test : String → Bool)
    (highlight : String → String) (options : TreeContextOptions)
    (ls : List String) (root : SNode) :
    ((NewTreeContext options ls root).showLines = ∅) ∧
    (tc.showLines = ∅ → Format tc = "") ∧
    ((AddLinesOfInterest tc ns).showLines = tc.showLines) ∧
    ((Grep tc test highlight).1.showLines = tc.showLines) ∧
    (tc.linesOfInterest = ∅ → AddContext tc = some tc) := by
  refine ⟨rfl, ?_, rfl, ?_, ?_⟩
  · intro h; unfold Format; rw [if_pos h]
  · exact grepFold_showLines test highlight tc.lines.enum (tc, ∅)
  · intro h; unfold AddContext; rw [if_pos h]

/-- Witness for C1 at a concrete 2-line file. -/
theorem c1_format_empty_when_show_empty_witness :
    Format exC1 = "" ∧ (Grep exC1 (fun s => s == "a") id).1.showLines = ∅ ∧
      AddContext exC1 = some exC1 := by
  obtain ⟨h0, h1, h2, h3, h4⟩ :=
    c1_format_empty_when_show_empty exC1 {3} (fun s => s == "a") id {} [] (.node 0 0 [])
  exact ⟨h1 rfl, h3.trans rfl, h4 rfl⟩

/-- C2: the claim says all selector operations treat out-of-range lines as
silent no-ops, never a fault.  The code violates this: seeding show-set
`{0, 1, 2}` on a 2-line file makes `closeSmallGaps` evaluate
`tc.lines[next]` with `next = 2 = len(sortedShow)-1`, a Go index-out-of-range
panic (`none` in this embedding). -/
theorem c2_out_of_range_loi_panics :
    exC2.numLines = 2 ∧ sortedKeys exC2.linesOfInterest = [0, 1, 2] ∧
      AddContext exC2 = none := by
  refine ⟨by decide, by decide, Option.isNone_iff_eq_none.mp (by decide)⟩

/-- C3 counterexample: with LOI padding 1 on a 9-line file, the second
`AddContext` call re-pads the already-enlarged show-set and produces a
strictly larger set than the first call — `AddContext` is not idempotent. -/
theorem c3_addcontext_not_idempotent_cex :
    (AddContext exC3).map (fun r => sortedKeys r.showLines) = some [3, 4, 5] ∧
    ((AddContext exC3).bind AddContext).map (fun r => sortedKeys r.showLines) =
      some [2, 3, 4, 5, 6] ∧
    ([3, 4, 5] : List Nat) ≠ [2, 3, 4, 5, 6] := by
  refine ⟨by decide, by decide, by decide⟩

/-- C3 amended: calling `AddContext()` twice yields a show-set containing the
show-set of the single call (monotone accumulation), but not necessarily the
same one. -/
theorem c3_addcontext_monotone (tc tc1 tc2 : TreeContext)
    (_h1 : AddContext tc = some tc1) (h2 : AddContext tc1 = some tc2) :
    tc1.showLines ⊆ tc2.showLines :=
  AddContext_showLines_mono tc1 tc2 h2

/-- Witness for the amended C3 on the concrete 9-line run. -/
theorem c3_addcontext_monotone_witness :
    exC3once.showLines ⊆ exC3twice.showLines :=
  c3_addcontext_monotone exC3 exC3once exC3twice
    (Option.some_get (by decide)).symm (Option.some_get (by decide)).symm

/-- C4 counterexample: for a 101-line block (budget
`round(0.10 × 100) = 10`, clamped budget 10 ≤ 25) a single
`addChildContext` call reveals all 101 lines — 101 new lines, far beyond
both the budget and the 25-line cap, because a child's span is added without
truncation and the budget is only consulted between children. -/
theorem c4_child_budget_exceeded_cex :
    exC4.showLines.card = 0 ∧
    getLastLineOfScope exC4 0 = 100 ∧
    computedMaxFor (getLastLineOfScope exC4 0 - 0) = 10 ∧
    (addChildContext exC4 0).showLines.card = 101 ∧
    25 < (addChildContext exC4 0).showLines.card - exC4.showLines.card := by
  refine ⟨by decide, by decide, by decide, by decide, by decide⟩

/-- C4 amended: a single `addChildContext` call only ever adds in-file lines
(so at most `numLines` new lines, not 25), and the budget merely gates
whether a further child is expanded: once the show-set exceeds its pre-call
size by more than the clamped budget, the loop stops before the next child. -/
theorem c4_child_expansion_bounds :
    (∀ (tc : TreeContext) (i : Nat),
        (addChildContext tc i).showLines ⊆ tc.showLines ∪ Finset.range tc.numLines) ∧
    (∀ (tc : TreeContext) (base budget : Nat) (c : SNode) (rest : List SNode)
        (st : Finset Nat × Finset Nat),
        st.1.card > base + budget → childLoop tc base budget (c :: rest) st = st) := by
  constructor
  · intro tc i
    exact childCtxSet_fst_bound tc i (tc.showLines, tc.doneParentScopes)
  · intro tc base budget c rest st h
    rw [childLoop, if_pos h]

/-- Witness for the amended C4: a loop entered over budget stops at once. -/
theorem c4_child_expansion_bounds_witness :
    childLoop exC4 0 5 [SNode.node 0 100 []] ({0, 1, 2, 3, 4, 5, 6}, ∅) =
      ({0, 1, 2, 3, 4, 5, 6}, ∅) :=
  c4_child_expansion_bounds.2 exC4 0 5 (SNode.node 0 100 []) []
    ({0, 1, 2, 3, 4, 5, 6}, ∅) (by decide)

/-- C5 counterexample: show-set `{0, 2}` on the 3-line file `["a", "b", ""]`
has a gap whose upper line 2 is the file's trailing blank final line, yet the
gap is closed (line 1 is filled): the code's skip compares the line number
with `len(sortedShow) - 1 = 1`, not with the file's last line. -/
theorem c5_trailing_blank_gap_closed_cex :
    isBlankLine "" = true ∧ (["a", "b", ""].length - 1 = 2) ∧
    (closeSmallGapsSet ["a", "b", ""] {0, 2}).map sortedKeys = some [0, 1, 2] := by
  refine ⟨by decide, by decide, by decide⟩

/-- C5 amended: gap closing fills exactly the one-line gaps in a single pass
(the `{0,2,4}` example needs its line 2 non-blank, because the skip condition
`next == len(sortedShow)-1 && blank` fires at line 2 there); the `{0,2,5,7}`
example holds for every 8-line file; and only lines flanked by two shown
lines two apart are ever added. -/
theorem c5_gap_closing_amended :
    (∀ lines : List String, lines.length = 5 → isBlankLine (lines.getD 2 "") = false →
        (closeSmallGapsSet lines {0, 2, 4}).map sortedKeys = some [0, 1, 2, 3, 4]) ∧
    (∀ lines : List String, lines.length = 8 →
        (closeSmallGapsSet lines {0, 2, 5, 7}).map sortedKeys =
          some [0, 1, 2, 5, 6, 7]) ∧
    (∀ (lines : List String) (s r : Finset Nat), closeSmallGapsSet lines s = some r →
        ∀ x ∈ r, x ∈ s ∨ (1 ≤ x ∧ x - 1 ∈ s ∧ x + 1 ∈ s)) := by
  refine ⟨?_, ?_, ?_⟩
  · intro lines h5 hnb
    rcases lines with _ | ⟨a, lines⟩; · simp at h5
    rcases lines with _ | ⟨b, lines⟩; · simp at h5
    rcases lines with _ | ⟨c, lines⟩; · simp at h5
    rcases lines with _ | ⟨d, lines⟩; · simp at h5
    rcases lines with _ | ⟨e, lines⟩; · simp at h5
    rcases lines with _ | ⟨f, lines⟩
    swap
    · simp [List.length_cons] at h5
    have hc : ¬(isBlankLine c = true) := by
      rw [show ([a, b, c, d, e].getD 2 "") = c from rfl] at hnb
      rw [hnb]; exact Bool.false_ne_true
    have hsort : sortedKeys {0, 2, 4} = [0, 2, 4] := by decide
    unfold closeSmallGapsSet
    rw [hsort]
    show (gapPass [a, b, c, d, e] 2 {0, 2, 4} [(0, 2), (2, 4)]).map sortedKeys =
      some [0, 1, 2, 3, 4]
    have h1 : gapStep [a, b, c, d, e] 2 {0, 2, 4} 0 2 = some (insert 1 {0, 2, 4}) := by
      unfold gapStep
      rw [if_pos rfl]
      show (if isBlankLine c = true then some ({0, 2, 4} : Finset Nat)
            else if 2 - 0 = 2 then some (insert (0 + 1) ({0, 2, 4} : Finset Nat))
            else some ({0, 2, 4} : Finset Nat)) = some (insert 1 {0, 2, 4})
      rw [if_neg hc, if_pos (by norm_num)]
    have h2 : gapStep [a, b, c, d, e] 2 (insert 1 {0, 2, 4}) 2 4 =
        some (insert 3 (insert 1 {0, 2, 4})) := by
      unfold gapStep
      rw [if_neg (by norm_num), if_pos (by norm_num)]
    simp only [gapPass, h1, h2, Option.map_some']
    decide
  · intro lines h8
    have hsort : sortedKeys {0, 2, 5, 7} = [0, 2, 5, 7] := by decide
    unfold closeSmallGapsSet
    rw [hsort]
    show (gapPass lines 3 {0, 2, 5, 7} [(0, 2), (2, 5), (5, 7)]).map sortedKeys =
      some [0, 1, 2, 5, 6, 7]
    have h1 : gapStep lines 3 {0, 2, 5, 7} 0 2 = some (insert 1 {0, 2, 5, 7}) := by
      unfold gapStep
      rw [if_neg (by norm_num), if_pos (by norm_num)]
    have h2 : gapStep lines 3 (insert 1 {0, 2, 5, 7}) 2 5 =
        some (insert 1 {0, 2, 5, 7}) := by
      unfold gapStep
      rw [if_neg (by norm_num), if_neg (by norm_num)]
    have h3 : gapStep lines 3 (insert 1 {0, 2, 5, 7}) 5 7 =
        some (insert 6 (insert 1 {0, 2, 5, 7})) := by
      unfold gapStep
      rw [if_neg (by norm_num), if_pos (by norm_num)]
    simp only [gapPass, h1, h2, h3, Option.map_some']
    decide
  · intro lines s r h x hx
    unfold closeSmallGapsSet at h
    rcases gapPass_mem lines _ _ s r h x hx with hxs | ⟨p, hp, hdiff, hx1⟩
    · exact Or.inl hxs
    · right
      obtain ⟨p1, p2⟩ := p
      unfold adjacentPairs at hp
      obtain ⟨hp1, hp2⟩ := List.of_mem_zip hp
      have hp1s : p1 ∈ s := (mem_sortedKeys _ _).mp hp1
      have hp2s : p2 ∈ s := (mem_sortedKeys _ _).mp (List.mem_of_mem_tail hp2)
      simp only at hdiff hx1
      subst hx1
      refine ⟨by omega, ?_, ?_⟩
      · rw [show p1 + 1 - 1 = p1 by omega]; exact hp1s
      · rw [show p1 + 1 + 1 = p2 by omega]; exact hp2s

/-- Witness for the amended C5 on concrete 5- and 8-line files. -/
theorem c5_gap_closing_amended_witness :
    (closeSmallGapsSet ["a", "b", "c", "d", "e"] {0, 2, 4}).map sortedKeys =
      some [0, 1, 2, 3, 4] ∧
    (closeSmallGapsSet ["a", "b", "c", "d", "e", "f", "g", "h"] {0, 2, 5, 7}).map
        sortedKeys = some [0, 1, 2, 5, 6, 7] :=
  ⟨c5_gap_closing_amended.1 ["a", "b", "c", "d", "e"] rfl (by decide),
   c5_gap_closing_amended.2.1 ["a", "b", "c", "d", "e", "f", "g", "h"] rfl⟩

/-- C6: for a block of fewer than 5 lines with a node starting on its start
line, marking the start line as an LOI and running `AddContext` with child
context enabled puts every line of the block into the show-set (for any run
that completes, i.e. returns `some`). -/
theorem c6_small_block_fully_shown (tc : TreeContext) (i : Nat)
    (h1 : i < tc.nodes.length) (h2 : (tc.nodes.getD i []).isEmpty = false)
    (h3 : getLastLineOfScope tc i - i < 5) (h4 : getLastLineOfScope tc i < tc.numLines)
    (h5 : i ∈ tc.linesOfInterest) (h6 : tc.showChildContext = true)
    (r : TreeContext) (hr : AddContext tc = some r) :
    ∀ l, i ≤ l → l ≤ getLastLineOfScope tc i → l ∈ r.showLines := by
  intro l hl1 hl2
  have hne : ¬ tc.linesOfInterest = ∅ := by
    intro hh; rw [hh] at h5; exact absurd h5 (Finset.not_mem_empty i)
  unfold AddContext at hr
  rw [if_neg hne, Option.map_eq_some'] at hr
  obtain ⟨s, hs, hrr⟩ := hr
  subst hrr
  show l ∈ s
  have hmem : l ∈ lineRange i (getLastLineOfScope tc i) tc.numLines :=
    mem_lineRange.mpr ⟨by omega, hl1, hl2⟩
  have hfold : lineRange i (getLastLineOfScope tc i) tc.numLines ⊆
      (phaseChild tc (phaseParent tc (phaseLast tc
        (phasePad tc (phaseSeed tc tc.showLines), tc.doneParentScopes)))).1 := by
    unfold phaseChild
    rw [if_pos h6]
    exact childFold_small tc i h1 h2 h3 _ _ ((mem_sortedKeys _ _).mpr h5)
  exact (hfold.trans ((phaseMargin_subset tc _).trans
    (closeSmallGapsSet_subset tc.lines _ s hs))) hmem

/-- Witness for C6: in the concrete 6-line file, the 3-line block starting at
LOI line 1 is fully revealed (here: its middle line 2). -/
theorem c6_small_block_fully_shown_witness :
    (AddContext exC6).elim False (fun r => 2 ∈ r.showLines) := by
  have hsome : (AddContext exC6).isSome = true := by decide
  cases hr : AddContext exC6 with
  | none => rw [hr] at hsome; exact Bool.noConfusion hsome
  | some r =>
    show 2 ∈ r.showLines
    exact c6_small_block_fully_shown exC6 1 (by decide) (by decide) (by decide)
      (by decide) (by decide) rfl r hr 2 (by decide) (by decide)

/-- C7: the claim (and the repository's own test, which expects `...⋮...`
with line numbers on) says the collapsed-range marker differs textually
between the numbered and plain modes; the canonical `Format` emits the
identical marker `⋮...` in both (it never calls `ellipsisLine`), as this
evaluation at a concrete 2-line file with show-set `{1}` shows. -/
theorem c7_marker_identical_both_modes :
    exC7num.showLineNumber = true ∧ exC7plain.showLineNumber = false ∧
    Format exC7num = "⋮...\n  2│b\n" ∧ Format exC7plain = "⋮...\n│b\n" ∧
    (Format exC7num).data.takeWhile (fun ch => ch != '\n') =
      (Format exC7plain).data.takeWhile (fun ch => ch != '\n') := by
  refine ⟨by decide, by decide, by decide, by decide, by decide⟩

/-- C8 counterexample: with `showTopOfFileParentScope` enabled, a line whose
scope set is `{0}` still gets no header lines from `addParentScopes` — the
`headStart == 0` continue fires before the flag is consulted, so the claimed
"flag reveals the top-of-file header" behaviour does not happen. -/
theorem c8_top_scope_flag_ignored_cex :
    exC8.showTopOfFileParentScope = true ∧
    0 ∈ exC8.scopes.getD 1 ∅ ∧
    exC8.header.getD 0 (0, 0) = (0, 2) ∧
    sortedKeys (addParentScopes exC8 1).showLines = [] := by
  refine ⟨by decide, by decide, by decide, by decide⟩

/-- C8 amended: in the canonical revision the header of a scope starting at
line 0 is always skipped — `addParentScopes`' show-set does not depend on
`showTopOfFileParentScope` at all. -/
theorem c8_addparentscopes_flag_irrelevant (tc : TreeContext) (b1 b2 : Bool) (i : Nat) :
    (addParentScopes { tc with showTopOfFileParentScope := b1 } i).showLines =
      (addParentScopes { tc with showTopOfFileParentScope := b2 } i).showLines := by
  show (apsSet { tc with showTopOfFileParentScope := b1 } i
      (tc.showLines, tc.doneParentScopes)).1 =
    (apsSet { tc with showTopOfFileParentScope := b2 } i
      (tc.showLines, tc.doneParentScopes)).1
  rw [apsSet_flagged tc b1 i (tc.showLines, tc.doneParentScopes),
    apsSet_flagged tc b2 i (tc.showLines, tc.doneParentScopes)]

/-- C9: the claim says a line on which no node of positive size starts gets
the header window `(i, i+1)`; the constructor initialises raw headers to
`[0, 0]`, so `postWalkProcessing`'s `(i, i+1)` default branch is dead and
such a line actually gets `(0, 1)` — here line 1 of a 3-line file. -/
theorem c9_header_default_not_identity :
    (exC9.nodes.getD 1 []).isEmpty = true ∧
    exC9.header.getD 1 (0, 0) = (0, 1) ∧
    exC9.header.getD 1 (0, 0) ≠ (1, 2) := by
  refine ⟨by decide, by decide, by decide⟩

/-- C10: the found set returned by `Grep` does not depend on the `color`
option — two runs with the same compiled pattern that differ only in the
colour setting return the same set of matching line indices. -/
theorem c10_grep_found_color_independent (tc : TreeContext)
    (test : String → Bool) (highlight : String → String) (b1 b2 : Bool) :
    (Grep { tc with color := b1 } test highlight).2 =
      (Grep { tc with color := b2 } test highlight).2 :=
  grepFold_found test highlight tc.lines.enum
    { tc with color := b1 } { tc with color := b2 } ∅

end GrepAst
